import Mathlib

/-!
Verification of the clipgen media pipeline: caption re-anchoring, viral-moment
ranking post-processing, clip materialization, shorts reformatting, face-tracking
position smoothing and crop synthesis.  Times and other float quantities are
modelled as exact rationals; machine effects (ffmpeg invocations, S3 transfers)
are modelled as boolean success oracles passed explicitly.
-/

namespace ClipGen

/-- Python `int()` applied to a float value: truncation toward zero. -/
def pyint (q : ℚ) : ℤ := if 0 ≤ q then ⌊q⌋ else ⌈q⌉

/-- Python `round(x)` (used here via `round(x, 3)` after scaling): round half to even. -/
def pyround (q : ℚ) : ℤ :=
  if q - ⌊q⌋ = 1 / 2 then (if ⌊q⌋ % 2 = 0 then ⌊q⌋ else ⌊q⌋ + 1) else round q

/-- Python `round(x, 3)`: round to three decimal places, half to even. -/
def rnd3 (q : ℚ) : ℚ := (pyround (q * 1000) : ℚ) / 1000

/-- Python `//` on integers: floor division. -/
def pyfloordiv (a b : ℤ) : ℤ := Int.fdiv a b

/-- A transcript segment produced by the ASR engine (`result["segments"]`):
start/end in source-video seconds plus text.  Lean reserves the word for the end
field, so it is spelled `end_`. -/
structure Segment where
  start : ℚ
  end_ : ℚ
  text : String
  deriving Repr, DecidableEq

/-- A clip-local caption cue as built by `extract_clip_transcript` in
`app/tasks.py`: adjusted and rounded timestamps plus stripped text. -/
structure Cue where
  start : ℚ
  end_ : ℚ
  text : String
  deriving Repr, DecidableEq

/-- Embedding of `extract_clip_transcript` (`app/tasks.py`, lines 41-72): keep
segments overlapping `[start_time, end_time)`, shift their timestamps to be
clip-relative, clamp into the clip and round to three decimals. -/
def extract_clip_transcript (segments : List Segment) (start_time end_time : ℚ) :
    List Cue :=
  segments.filterMap fun seg =>
    if seg.end_ > start_time ∧ seg.start < end_time then
      some { start := rnd3 (max 0 (seg.start - start_time))
             end_ := rnd3 (min (end_time - start_time) (seg.end_ - start_time))
             text := seg.text.trim }
    else
      none

/-- A candidate clip as found in the oracle's JSON response (`app/ai_logic.py`).
The fields mirror the `Clip` pydantic schema; in the raw-JSON fallback path any
of `reason`, `virality_score`, `hook_type` may be absent, hence `Option`. -/
structure RawClip where
  start : ℚ
  end_ : ℚ
  reason : Option String
  virality_score : Option ℤ
  hook_type : Option String
  deriving Repr, DecidableEq

/-- The pydantic validation performed by the `Clip` schema in
`identify_viral_clips` (`app/ai_logic.py`, lines 68-73): all fields must be
present and `virality_score` must satisfy `ge=0, le=100`.  Validation checks the
score range; it never alters the value. -/
def clipValid (c : RawClip) : Bool :=
  c.reason.isSome && c.hook_type.isSome &&
    match c.virality_score with
    | some s => decide (0 ≤ s) && decide (s ≤ 100)
    | none => false

/-- The oracle (LLM) response content: the list of candidate clips carried in
its JSON payload `{clips: [...]}`. -/
structure GenAIResponse where
  clips : List RawClip
  deriving Repr, DecidableEq

/-- The structured-output path of the genai SDK: `response.parsed` is the
schema-validated parse of the response, available exactly when every clip
passes the `Clip` schema validation; otherwise the code falls back to
`json.loads(response.text)`, which yields the same clips verbatim. -/
def response_parsed (r : GenAIResponse) : Option (List RawClip) :=
  if r.clips.all clipValid then some r.clips else none

/-- Sort key used by `clips.sort(key=lambda x: x.get('virality_score', 0), reverse=True)`. -/
def sortKey (c : RawClip) : ℤ := c.virality_score.getD 0

/-- The ordering relation realized by Python's stable `list.sort` with
`reverse=True`: `a` may come before `b` exactly when `a`'s key is at least
`b`'s. -/
def scoreOrder (a b : RawClip) : Prop := sortKey b ≤ sortKey a

instance : DecidableRel scoreOrder := fun a b => by
  unfold scoreOrder; infer_instance

instance : IsTotal RawClip scoreOrder :=
  ⟨fun a b => le_total (sortKey b) (sortKey a)⟩

instance : IsTrans RawClip scoreOrder :=
  ⟨fun _ _ _ h h2 => le_trans h2 h⟩

/-- Embedding of `identify_viral_clips` (`app/ai_logic.py`, lines 86-97) from
the oracle response onward: take the parsed clips when schema validation
succeeds, else the raw JSON clips, then sort by virality score descending
with Python's stable sort (modelled by the stable `List.insertionSort`). -/
def identify_viral_clips (r : GenAIResponse) : List RawClip :=
  let clips :=
    match response_parsed r with
    | some cs => cs
    | none => r.clips
  List.insertionSort scoreOrder clips

/-- Video lifecycle states (`app/models.py`, `VideoStatus`). -/
inductive VideoStatus where
  | PENDING
  | PROCESSING
  | COMPLETED
  | FAILED
  deriving Repr, DecidableEq

/-- A persisted `clips` table row as built by `process_video_task`
(`app/models.py` lines 33-51; `app/tasks.py` lines 143-153).  `s3_key` is a
nullable column, hence `Option`. -/
structure DbClip where
  video_id : String
  filename : String
  s3_key : Option String
  reason : String
  start_time : ℚ
  end_time : ℚ
  virality_score : Option ℤ
  hook_type : Option String
  transcript_json : Option (List Cue)
  deriving Repr, DecidableEq

/-- The row `process_video_task` inserts for candidate number `i`
(`app/tasks.py`, lines 120-153). -/
def mkDbClip (segments : List Segment) (video_id user_id : String) (i : ℕ)
    (clip : RawClip) : DbClip :=
  let clip_filename := video_id ++ "_clip_" ++ toString i ++ ".mp4"
  let clip_transcript := extract_clip_transcript segments clip.start clip.end_
  { video_id := video_id
    filename := clip_filename
    s3_key := some ("clips/" ++ user_id ++ "/" ++ video_id ++ "/" ++ clip_filename)
    reason := clip.reason.getD ""
    start_time := clip.start
    end_time := clip.end_
    virality_score := clip.virality_score
    hook_type := clip.hook_type
    transcript_json := if clip_transcript = [] then none else some clip_transcript }

/-- Loop body of step 6 of `process_video_task` (`app/tasks.py`, lines
117-179).  `cutOk i` models whether the ffmpeg cut of candidate `i` succeeds
(`create_video_clip` runs `subprocess.run(..., check=True)`, so a failure
raises, escapes the loop, and the `except` handler marks the video FAILED
after committing rows added so far); `uploadOk i` models the boolean result of
`upload_file`, whose failure merely `continue`s to the next candidate. -/
def materializeGo (segments : List Segment) (video_id user_id : String)
    (cutOk uploadOk : ℕ → Bool) :
    ℕ → List RawClip → List DbClip → VideoStatus × List DbClip
  | _, [], acc => (VideoStatus.COMPLETED, acc)
  | i, clip :: rest, acc =>
    if !cutOk i then
      (VideoStatus.FAILED, acc)
    else if !uploadOk i then
      materializeGo segments video_id user_id cutOk uploadOk (i + 1) rest acc
    else
      materializeGo segments video_id user_id cutOk uploadOk (i + 1) rest
        (acc ++ [mkDbClip segments video_id user_id i clip])

/-- Embedding of steps 6-7 of `process_video_task` (`app/tasks.py`, lines
117-179): materialize every ranked candidate in order, then mark the video
COMPLETED; a cut failure raises and the handler marks it FAILED instead.
Returns the final video status together with the committed clip rows. -/
def process_video_materialize (segments : List Segment)
    (ai_suggestions : List RawClip) (video_id user_id : String)
    (cutOk uploadOk : ℕ → Bool) : VideoStatus × List DbClip :=
  materializeGo segments video_id user_id cutOk uploadOk 0 ai_suggestions []

/-- A detected face box per sampled frame (`detect_faces_in_frames`,
`app/face_tracking.py`): normalized `(center_x, center_y, width, height)`, or
`none` when no face was found in that frame. -/
abbrev FaceBox := ℚ × ℚ × ℚ × ℚ

/-- The fill pass of `smooth_positions` (`app/face_tracking.py`, lines
156-163): replace each absent detection by the last observed center, starting
from the screen center `(0.5, 0.5)`. -/
def fillPositions (last_valid : ℚ × ℚ) : List (Option FaceBox) → List (ℚ × ℚ)
  | [] => []
  | none :: rest => last_valid :: fillPositions last_valid rest
  | some p :: rest => (p.1, p.2.1) :: fillPositions (p.1, p.2.1) rest

/-- Average of the x components (resp. y via `Prod.snd`) of a window, as
computed by `sum(...) / len(window)` in `smooth_positions`. -/
def windowAvg (window : List (ℚ × ℚ)) : ℚ × ℚ :=
  ((window.map Prod.fst).sum / window.length, (window.map Prod.snd).sum / window.length)

/-- Embedding of `smooth_positions` (`app/face_tracking.py`, lines 143-179):
hold-fill absences from `(0.5, 0.5)`, then take a centered moving average with
half-window `window_size // 2`, the window at index `i` being the slice
`filled[max(0, i - hw) : min(n, i + hw + 1)]`. -/
def smooth_positions (positions : List (Option FaceBox))
    (window_size : ℕ := 5) : List (ℚ × ℚ) :=
  let filled := fillPositions (1/2, 1/2) positions
  let hw := window_size / 2
  (List.range filled.length).map fun i =>
    let s := i - hw
    let e := min filled.length (i + hw + 1)
    windowAvg ((filled.drop s).take (e - s))

/-- Embedding of the crop computation of `generate_crop_filter`
(`app/face_tracking.py`, lines 182-243): fit a `target_width : target_height`
window into the source, force even dimensions, aim it at the mean smoothed
position (screen center when the trajectory is empty) and clamp the offsets
into the frame.  Returns `(crop_width, crop_height, x_offset, y_offset)`. -/
def generate_crop_filter (smoothed_positions : List (ℚ × ℚ))
    (video_width video_height : ℤ)
    (target_width : ℤ := 1080) (target_height : ℤ := 1920) : ℤ × ℤ × ℤ × ℤ :=
  let target_ratio : ℚ := (target_width : ℚ) / (target_height : ℚ)
  let source_ratio : ℚ := (video_width : ℚ) / (video_height : ℚ)
  let dims :=
    if source_ratio > target_ratio then
      (pyint ((video_height : ℚ) * target_ratio), video_height)
    else
      (video_width, pyint ((video_width : ℚ) / target_ratio))
  let crop_width := dims.1 - dims.1 % 2
  let crop_height := dims.2 - dims.2 % 2
  let max_x_offset := video_width - crop_width
  let max_y_offset := video_height - crop_height
  let avg :=
    if smoothed_positions.length ≠ 0 then
      ((smoothed_positions.map Prod.fst).sum / smoothed_positions.length,
       (smoothed_positions.map Prod.snd).sum / smoothed_positions.length)
    else (1/2, 1/2)
  let x_offset := pyint (avg.1 * (video_width : ℚ) - (crop_width : ℚ) / 2)
  let y_offset := pyint (avg.2 * (video_height : ℚ) - (crop_height : ℚ) / 2)
  let x_offset := max 0 (min x_offset max_x_offset)
  let y_offset := max 0 (min y_offset max_y_offset)
  (crop_width, crop_height, x_offset, y_offset)

/-- Embedding of the crop computation of `convert_to_shorts`
(`app/utils.py`, lines 63-93): center-crop the source to the 9:16 target
ratio, forcing even dimensions after the offsets are computed.  Returns
`(new_width, new_height, x_offset, y_offset)`. -/
def convert_to_shorts_crop (width height : ℤ) : ℤ × ℤ × ℤ × ℤ :=
  let target_ratio : ℚ := 9 / 16
  let current_ratio : ℚ := (width : ℚ) / (height : ℚ)
  let raw :=
    if current_ratio > target_ratio then
      let new_width := pyint ((height : ℚ) * target_ratio)
      (new_width, height, pyfloordiv (width - new_width) 2, 0)
    else
      let new_height := pyint ((width : ℚ) / target_ratio)
      (width, new_height, 0, pyfloordiv (height - new_height) 2)
  (raw.1 - raw.1 % 2, raw.2.1 - raw.2.1 % 2, raw.2.2.1, raw.2.2.2)

/-- The layout behavior actually applied to the video by the shorts
conversion: a plain center crop (`convert_to_shorts`), the blurred-background
composition (`convert_to_shorts_blurred`), or a face-tracking crop with the
given crop rectangle (`convert_to_shorts_smart`). -/
inductive Applied where
  | centerCrop
  | blurred
  | smartCrop (rect : ℤ × ℤ × ℤ × ℤ)
  deriving Repr, DecidableEq

/-- Embedding of `convert_to_shorts_smart` (`app/face_tracking.py`, lines
246-300), abstracting frame extraction and detection into the resulting
per-frame detection list: with no frames or no detected face it falls back to
`convert_to_shorts` (center crop); otherwise it smooths the positions and
applies the generated crop filter. -/
def convert_to_shorts_smart (width height : ℤ)
    (detections : List (Option FaceBox)) : Applied :=
  if detections.length = 0 then
    Applied.centerCrop
  else if !(detections.any fun pos => pos.isSome) then
    Applied.centerCrop
  else
    Applied.smartCrop (generate_crop_filter (smooth_positions detections) width height)

/-- Layout dispatch of `convert_to_shorts_with_layout` (`app/utils.py`, lines
158-191). -/
def convert_to_shorts_with_layout (layout_type : String) (width height : ℤ)
    (detections : List (Option FaceBox)) : Applied :=
  if layout_type = "blurred" then Applied.blurred
  else if layout_type = "smart" then convert_to_shorts_smart width height detections
  else Applied.centerCrop

/-- The persisted `clips` row fields touched by the shorts conversion
(`app/models.py` lines 33-51). -/
structure ClipRow where
  filename : String
  video_id : String
  s3_key : Option String
  shorts_s3_key : Option String
  layout_type : Option String
  deriving Repr, DecidableEq

/-- Result of `convert_clip_to_shorts_task` as the caller observes it. -/
inductive TaskResult where
  | complete (shorts_s3_key : String) (layout_type : String)
  | failed (error : String)
  deriving Repr, DecidableEq

/-- Embedding of `convert_clip_to_shorts_task` (`app/tasks.py`, lines
241-315): download the clip, encode the requested layout, upload, then store
the new `shorts_s3_key` and the requested `layout_type` on the row.
`downloadOk`/`uploadOk` model the boolean S3 results.  Returns the updated row,
the task result, the number of encodes performed, and the layout behavior
actually applied by the encode (when one ran). -/
def convert_clip_to_shorts_task (clip : ClipRow) (user_id : String)
    (layout_type : String) (width height : ℤ)
    (detections : List (Option FaceBox)) (downloadOk uploadOk : Bool) :
    ClipRow × TaskResult × ℕ × Option Applied :=
  match clip.s3_key with
  | none => (clip, TaskResult.failed "Clip not found or no S3 key", 0, none)
  | some _ =>
    if !downloadOk then
      (clip, TaskResult.failed "Could not download clip from S3", 0, none)
    else
      let shorts_filename := "shorts_" ++ layout_type ++ "_" ++ clip.filename
      let applied := convert_to_shorts_with_layout layout_type width height detections
      let shorts_s3_key :=
        "shorts/" ++ user_id ++ "/" ++ clip.video_id ++ "/" ++ shorts_filename
      if !uploadOk then
        (clip, TaskResult.failed "Could not upload shorts to S3", 1, some applied)
      else
        ({ clip with shorts_s3_key := some shorts_s3_key,
                     layout_type := some layout_type },
         TaskResult.complete shorts_s3_key layout_type, 1, some applied)

/-- Response of the `POST /clips/:id/convert-shorts` endpoint as far as the
artifact locator is concerned: either the cache-hit answer carrying the
existing shorts key (`already_converted`), or the outcome of the dispatched
conversion task. -/
inductive ConvertResponse where
  | alreadyConverted (shorts_s3_key : String)
  | processed (result : TaskResult)
  deriving Repr, DecidableEq

/-- Embedding of `convert_clip_to_shorts` (`app/main.py`, lines 294-336)
composed with the task it dispatches, run to completion: if the row already
has a shorts artifact with the requested layout, short-circuit on it without
encoding; otherwise run `convert_clip_to_shorts_task`.  Returns the updated
row, the response, and the number of encodes performed. -/
def convert_shorts_request (clip : ClipRow) (user_id : String)
    (layout_type : String) (width height : ℤ)
    (detections : List (Option FaceBox)) (downloadOk uploadOk : Bool) :
    ClipRow × ConvertResponse × ℕ :=
  match clip.shorts_s3_key with
  | some existing =>
    if clip.layout_type = some layout_type then
      (clip, ConvertResponse.alreadyConverted existing, 0)
    else
      let r := convert_clip_to_shorts_task clip user_id layout_type width height
        detections downloadOk uploadOk
      (r.1, ConvertResponse.processed r.2.1, r.2.2.1)
  | none =>
    let r := convert_clip_to_shorts_task clip user_id layout_type width height
      detections downloadOk uploadOk
    (r.1, ConvertResponse.processed r.2.1, r.2.2.1)

/-- The artifact locator a convert-shorts response yields, when any. -/
def responseLocator : ConvertResponse → Option String
  | ConvertResponse.alreadyConverted k => some k
  | ConvertResponse.processed (TaskResult.complete k _) => some k
  | ConvertResponse.processed (TaskResult.failed _) => none

/-! Properties of the rounding helpers. -/

lemma floor_le_pyround (q : ℚ) : ⌊q⌋ ≤ pyround q := by
  unfold pyround
  split
  · split
    · exact le_rfl
    · exact le_of_lt (lt_add_one _)
  · rw [round_eq]
    exact Int.floor_mono (by linarith)

lemma pyround_le_floor_add_one (q : ℚ) : pyround q ≤ ⌊q⌋ + 1 := by
  unfold pyround
  split
  · split
    · exact le_of_lt (lt_add_one _)
    · exact le_rfl
  · rw [round_eq]
    have h2 : ⌊q + (1 : ℚ)⌋ = ⌊q⌋ + 1 := by
      exact_mod_cast Int.floor_add_int q 1
    have h3 : ⌊q + (1 : ℚ)/2⌋ ≤ ⌊q + (1 : ℚ)⌋ := Int.floor_mono (by linarith)
    omega

lemma pyround_mono {a b : ℚ} (h : a ≤ b) : pyround a ≤ pyround b := by
  rcases lt_or_le ⌊a⌋ ⌊b⌋ with hlt | hle
  · calc pyround a ≤ ⌊a⌋ + 1 := pyround_le_floor_add_one a
      _ ≤ ⌊b⌋ := by omega
      _ ≤ pyround b := floor_le_pyround b
  · have heq : ⌊a⌋ = ⌊b⌋ := le_antisymm (Int.floor_mono h) hle
    by_cases ta : a - ⌊a⌋ = 1/2 <;> by_cases tb : b - ⌊b⌋ = 1/2
    · have hab : a = b := by
        have := heq ▸ ta
        linarith
      rw [hab]
    · have hbgt : (⌊b⌋ : ℚ) + 1/2 < b := by
        have hge : (⌊b⌋ : ℚ) + 1/2 ≤ b := by
          have : (⌊a⌋ : ℚ) + 1/2 = a := by linarith
          calc (⌊b⌋ : ℚ) + 1/2 = (⌊a⌋ : ℚ) + 1/2 := by rw [heq]
            _ = a := this
            _ ≤ b := h
        rcases lt_or_eq_of_le hge with h1 | h1
        · exact h1
        · exact absurd (by linarith) tb
      have hrb : ⌊b⌋ + 1 ≤ pyround b := by
        unfold pyround
        rw [if_neg tb, round_eq]
        rw [Int.le_floor]
        push_cast
        linarith
      calc pyround a ≤ ⌊a⌋ + 1 := pyround_le_floor_add_one a
        _ = ⌊b⌋ + 1 := by rw [heq]
        _ ≤ pyround b := hrb
    · have halt : a < (⌊a⌋ : ℚ) + 1/2 := by
        have hle2 : a ≤ (⌊a⌋ : ℚ) + 1/2 := by
          have : b = (⌊a⌋ : ℚ) + 1/2 := by
            rw [heq]; linarith
          linarith
        rcases lt_or_eq_of_le hle2 with h1 | h1
        · exact h1
        · exact absurd (by linarith) ta
      have hra : pyround a ≤ ⌊a⌋ := by
        unfold pyround
        rw [if_neg ta, round_eq]
        have : ⌊a + (1 : ℚ)/2⌋ < ⌊a⌋ + 1 := by
          rw [Int.floor_lt]
          push_cast
          linarith
        omega
      calc pyround a ≤ ⌊a⌋ := hra
        _ = ⌊b⌋ := heq
        _ ≤ pyround b := floor_le_pyround b
    · unfold pyround
      rw [if_neg ta, if_neg tb, round_eq, round_eq]
      exact Int.floor_mono (by linarith)

lemma rnd3_mono {a b : ℚ} (h : a ≤ b) : rnd3 a ≤ rnd3 b := by
  unfold rnd3
  have h1 : pyround (a * 1000) ≤ pyround (b * 1000) := pyround_mono (by linarith)
  have h2 : (pyround (a * 1000) : ℚ) ≤ (pyround (b * 1000) : ℚ) := by exact_mod_cast h1
  linarith

lemma rnd3_zero : rnd3 0 = 0 := by
  unfold rnd3 pyround
  norm_num

lemma rnd3_nonneg {q : ℚ} (h : 0 ≤ q) : 0 ≤ rnd3 q := by
  have := rnd3_mono h
  rwa [rnd3_zero] at this

/-- The loop of `extract_clip_transcript` is the overlap filter followed by
the clamp-shift-round map. -/
lemma extract_clip_transcript_eq (segments : List Segment) (c d : ℚ) :
    extract_clip_transcript segments c d =
      (segments.filter fun seg => decide (seg.end_ > c ∧ seg.start < d)).map
        fun seg =>
          { start := rnd3 (max 0 (seg.start - c))
            end_ := rnd3 (min (d - c) (seg.end_ - c))
            text := seg.text.trim } := by
  induction segments with
  | nil => rfl
  | cons seg rest ih =>
    by_cases hov : seg.end_ > c ∧ seg.start < d
    · simp only [extract_clip_transcript, List.filterMap_cons, List.filter_cons,
        if_pos hov, decide_eq_true hov, List.map_cons, cond_true]
      exact congrArg _ ih
    · simp only [extract_clip_transcript, List.filterMap_cons, List.filter_cons,
        if_neg hov, decide_eq_false hov, cond_false]
      exact ih

/-- Claim C1, counterexample: `extract_clip_transcript` rounds the adjusted
timestamps to three decimals, so a segment overlapping the clip window by less
than half a millisecond yields a degenerate cue with `start = end = 0`,
refuting the claimed strict bound `cue.start < cue.end`.  Input: one segment
`[5, 10.0004]`, clip window `[10, 20)`. -/
theorem C1_counterexample :
    ∃ cue ∈ extract_clip_transcript [⟨5, 10 + 1/2500, "x"⟩] 10 20,
      ¬ (cue.start < cue.end_) := by
  have h : extract_clip_transcript [⟨5, 10 + 1/2500, "x"⟩] 10 20 =
      [⟨0, 0, "x".trim⟩] := by
    rw [extract_clip_transcript_eq]
    norm_num [List.filter, rnd3, pyround, round_eq]
  rw [h]
  exact ⟨⟨0, 0, "x".trim⟩, by simp, by norm_num⟩

/-- Claim C1 (amended): for every transcript whose segments satisfy
`start < end` and every clip window with `clipStart < clipEnd`,
`extract_clip_transcript` includes exactly the segments with
`segment.end > clipStart` and `segment.start < clipEnd`, maps each included
segment to the cue with start `round3(max(0, segment.start − clipStart))` and
end `round3(min(clipEnd − clipStart, segment.end − clipStart))` (the code
rounds to three decimals), and every output cue satisfies
`0 ≤ cue.start ≤ cue.end ≤ round3(clipEnd − clipStart)` (rounding can collapse
sub-half-millisecond overlaps to zero-length cues, so the bound on
`cue.start < cue.end` is non-strict). -/
theorem C1_theorem (segments : List Segment) (clipStart clipEnd : ℚ)
    (hc : clipStart < clipEnd)
    (hs : ∀ seg ∈ segments, seg.start < seg.end_) :
    extract_clip_transcript segments clipStart clipEnd =
      (segments.filter fun seg =>
          decide (seg.end_ > clipStart ∧ seg.start < clipEnd)).map
        (fun seg =>
          { start := rnd3 (max 0 (seg.start - clipStart))
            end_ := rnd3 (min (clipEnd - clipStart) (seg.end_ - clipStart))
            text := seg.text.trim }) ∧
    ∀ cue ∈ extract_clip_transcript segments clipStart clipEnd,
      0 ≤ cue.start ∧ cue.start ≤ cue.end_ ∧
        cue.end_ ≤ rnd3 (clipEnd - clipStart) := by
  refine ⟨extract_clip_transcript_eq segments clipStart clipEnd, ?_⟩
  intro cue hcue
  rw [extract_clip_transcript_eq] at hcue
  obtain ⟨seg, hseg, rfl⟩ := List.mem_map.mp hcue
  obtain ⟨hmem, hov⟩ := List.mem_filter.mp hseg
  have hov2 : seg.end_ > clipStart ∧ seg.start < clipEnd := of_decide_eq_true hov
  have hse := hs seg hmem
  refine ⟨rnd3_nonneg (le_max_left 0 _), ?_, ?_⟩
  · apply rnd3_mono
    apply le_min
    · exact max_le (by linarith) (by linarith [hov2.2])
    · exact max_le (by linarith [hov2.1]) (by linarith)
  · exact rnd3_mono (min_le_left _ _)

/-- Claim C1, witness: the amended theorem applied to the transcript
`[(0, 8, "hi")]` and clip window `[0, 10)`. -/
theorem C1_witness :
    extract_clip_transcript [⟨0, 8, "hi"⟩] 0 10 = [⟨0, 8, "hi".trim⟩] := by
  have h := (C1_theorem [⟨0, 8, "hi"⟩] 0 10 (by norm_num)
    (by intro seg hseg; rw [List.mem_singleton] at hseg; subst hseg; norm_num)).1
  rw [h]
  norm_num [List.filter, rnd3, pyround, round_eq]

/-! Properties of the ranking step's sort. -/

/-- Both parse paths hand the oracle's clips to the sort unchanged. -/
lemma identify_viral_clips_eq (r : GenAIResponse) :
    identify_viral_clips r = List.insertionSort scoreOrder r.clips := by
  unfold identify_viral_clips response_parsed
  by_cases h : r.clips.all clipValid <;> simp [h]

/-- Filtering on a fixed score commutes with the stable insertion: among
equal-score clips the inserted one goes first only when it is inserted before
all of them, which the ordering guarantees never happens. -/
lemma filter_orderedInsert (s : ℤ) (x : RawClip) (l : List RawClip) :
    (List.orderedInsert scoreOrder x l).filter (fun c => decide (sortKey c = s)) =
      if sortKey x = s then
        x :: l.filter (fun c => decide (sortKey c = s))
      else
        l.filter (fun c => decide (sortKey c = s)) := by
  induction l with
  | nil =>
    by_cases hx : sortKey x = s <;> simp [List.orderedInsert, hx]
  | cons y ys ih =>
    by_cases hxy : scoreOrder x y
    · by_cases hx : sortKey x = s <;>
        simp [List.orderedInsert, if_pos hxy, List.filter_cons, hx]
    · by_cases hx : sortKey x = s <;> by_cases hy : sortKey y = s
      · exact absurd (show scoreOrder x y by unfold scoreOrder; rw [hx, hy]) hxy
      · simp [List.orderedInsert, if_neg hxy, List.filter_cons, hx, hy, ih]
      · simp [List.orderedInsert, if_neg hxy, List.filter_cons, hx, hy, ih]
      · simp [List.orderedInsert, if_neg hxy, List.filter_cons, hx, hy, ih]

/-- Stability of the modelled Python sort: the equal-score clips of the sorted
output appear in exactly their input order. -/
lemma filter_insertionSort (s : ℤ) (l : List RawClip) :
    (List.insertionSort scoreOrder l).filter (fun c => decide (sortKey c = s)) =
      l.filter (fun c => decide (sortKey c = s)) := by
  induction l with
  | nil => rfl
  | cons x xs ih =>
    simp only [List.insertionSort]
    rw [filter_orderedInsert]
    by_cases hx : sortKey x = s <;> simp [hx, ih, List.filter_cons]

/-- Claim C3, counterexample: `clips.sort(key=..., reverse=True)` is Python's
stable sort, so two candidates with equal score 80 stay in oracle order — the
one starting at 50 stays before the one starting at 10, refuting the claimed
tie-break by earlier start time. -/
theorem C3_counterexample :
    ¬ (identify_viral_clips ⟨[⟨50, 70, some "a", some 80, some "h"⟩,
        ⟨10, 30, some "b", some 80, some "h"⟩]⟩).Pairwise
      (fun a b => sortKey b < sortKey a ∨
        (sortKey a = sortKey b ∧ a.start ≤ b.start)) := by
  have h : identify_viral_clips ⟨[⟨50, 70, some "a", some 80, some "h"⟩,
      ⟨10, 30, some "b", some 80, some "h"⟩]⟩ =
      [⟨50, 70, some "a", some 80, some "h"⟩,
       ⟨10, 30, some "b", some 80, some "h"⟩] := by decide
  rw [h]
  intro hp
  rcases List.pairwise_cons.mp hp with ⟨hrel, -⟩
  have := hrel _ (List.mem_singleton.mpr rfl)
  rcases this with h1 | ⟨-, h2⟩
  · exact absurd h1 (by decide)
  · exact absurd h2 (by norm_num)

/-- Claim C3 (amended): for every oracle response, `identify_viral_clips`
returns the clips sorted by virality score descending, and candidates with
equal scores appear in their oracle-response order (Python's `list.sort` is
stable; ties are not re-ordered by start time).  The function is deterministic
for a fixed response. -/
theorem C3_theorem (r : GenAIResponse) :
    (identify_viral_clips r).Pairwise scoreOrder ∧
    ∀ s : ℤ, (identify_viral_clips r).filter (fun c => decide (sortKey c = s)) =
      r.clips.filter (fun c => decide (sortKey c = s)) := by
  rw [identify_viral_clips_eq]
  exact ⟨List.sorted_insertionSort scoreOrder r.clips,
    fun s => filter_insertionSort s r.clips⟩

/-- Claim C4, counterexample: a candidate whose oracle score is 150 fails the
pydantic `ge=0, le=100` validation, so the code takes the raw-JSON fallback
path and returns the candidate with its score unchanged — neither clamped into
`[0, 100]` nor in range. -/
theorem C4_counterexample :
    ∃ c ∈ identify_viral_clips ⟨[⟨0, 20, some "a", some 150, some "h"⟩]⟩,
      c.virality_score = some 150 ∧ ¬ (sortKey c ≤ 100) := by
  have h : identify_viral_clips ⟨[⟨0, 20, some "a", some 150, some "h"⟩]⟩ =
      [⟨0, 20, some "a", some 150, some "h"⟩] := by decide
  rw [h]
  exact ⟨⟨0, 20, some "a", some 150, some "h"⟩, by simp, rfl, by decide⟩

/-- Claim C4 (amended): `identify_viral_clips` never clamps, rejects or
otherwise alters a candidate: its output is a permutation (a reordering by
score) of the oracle's clips with every field unchanged, so out-of-range
scores are passed through verbatim — the structured parse path refuses them
and the raw fallback path keeps them as-is. -/
theorem C4_theorem (r : GenAIResponse) :
    (identify_viral_clips r).Perm r.clips := by
  rw [identify_viral_clips_eq]
  exact List.perm_insertionSort scoreOrder r.clips

/-! Properties of the materialization loop. -/

/-- The clip rows the loop commits when every cut succeeds: exactly the
candidates whose upload succeeded, in order, materialized verbatim. -/
def uploadedClips (segments : List Segment) (video_id user_id : String)
    (uploadOk : ℕ → Bool) : ℕ → List RawClip → List DbClip
  | _, [] => []
  | i, c :: rest =>
    if uploadOk i then
      mkDbClip segments video_id user_id i c ::
        uploadedClips segments video_id user_id uploadOk (i + 1) rest
    else
      uploadedClips segments video_id user_id uploadOk (i + 1) rest

lemma materializeGo_completed (segments : List Segment) (video_id user_id : String)
    (cutOk uploadOk : ℕ → Bool) :
    ∀ (rest : List RawClip) (i : ℕ) (acc : List DbClip),
      (∀ j, j < rest.length → cutOk (i + j) = true) →
      materializeGo segments video_id user_id cutOk uploadOk i rest acc =
        (VideoStatus.COMPLETED,
         acc ++ uploadedClips segments video_id user_id uploadOk i rest) := by
  intro rest
  induction rest with
  | nil => intro i acc _; simp [materializeGo, uploadedClips]
  | cons c rest ih =>
    intro i acc h
    have hcut : cutOk i = true := by simpa using h 0 (Nat.succ_pos _)
    have hrest : ∀ j, j < rest.length → cutOk (i + 1 + j) = true := by
      intro j hj
      have := h (j + 1) (by simpa using Nat.succ_lt_succ hj)
      rwa [show i + (j + 1) = i + 1 + j by omega] at this
    cases hup : uploadOk i with
    | true =>
      simp only [materializeGo, hcut, hup, Bool.not_true, Bool.false_eq_true,
        if_false, uploadedClips, if_pos]
      rw [ih (i + 1) (acc ++ [mkDbClip segments video_id user_id i c]) hrest]
      simp
    | false =>
      simp only [materializeGo, hcut, hup, Bool.not_true, Bool.not_false,
        Bool.false_eq_true, if_false, if_true, uploadedClips]
      rw [ih (i + 1) acc hrest]

lemma materializeGo_failed (segments : List Segment) (video_id user_id : String)
    (cutOk uploadOk : ℕ → Bool) :
    ∀ (rest : List RawClip) (i : ℕ) (acc : List DbClip),
      (∃ j, j < rest.length ∧ cutOk (i + j) = false) →
      (materializeGo segments video_id user_id cutOk uploadOk i rest acc).1 =
        VideoStatus.FAILED := by
  intro rest
  induction rest with
  | nil =>
    intro i acc h
    obtain ⟨j, hj, -⟩ := h
    exact absurd hj (by simp)
  | cons c rest ih =>
    intro i acc h
    obtain ⟨j, hj, hfail⟩ := h
    cases hcut : cutOk i with
    | false => simp [materializeGo, hcut]
    | true =>
      have hj0 : j ≠ 0 := by
        intro h0
        rw [h0, Nat.add_zero, hcut] at hfail
        exact absurd hfail (by simp)
      have hex : ∃ j2, j2 < rest.length ∧ cutOk (i + 1 + j2) = false := by
        refine ⟨j - 1, by simp at hj; omega, ?_⟩
        rw [show i + 1 + (j - 1) = i + j by omega]
        exact hfail
      cases hup : uploadOk i with
      | true =>
        simp only [materializeGo, hcut, hup, Bool.not_true, Bool.false_eq_true, if_false]
        exact ih (i + 1) _ hex
      | false =>
        simp only [materializeGo, hcut, hup, Bool.not_true, Bool.not_false,
          Bool.false_eq_true, if_false, if_true]
        exact ih (i + 1) _ hex

lemma materializeGo_mem (segments : List Segment) (video_id user_id : String)
    (cutOk uploadOk : ℕ → Bool) :
    ∀ (rest : List RawClip) (i : ℕ) (acc : List DbClip) (c : DbClip),
      c ∈ (materializeGo segments video_id user_id cutOk uploadOk i rest acc).2 →
      c ∈ acc ∨ ∃ j cand, cand ∈ rest ∧
        c = mkDbClip segments video_id user_id j cand ∧ uploadOk j = true := by
  intro rest
  induction rest with
  | nil =>
    intro i acc c hc
    exact Or.inl (by simpa [materializeGo] using hc)
  | cons cand rest ih =>
    intro i acc c hc
    cases hcut : cutOk i with
    | false =>
      simp only [materializeGo, hcut, Bool.not_false, if_true] at hc
      exact Or.inl hc
    | true =>
      cases hup : uploadOk i with
      | false =>
        simp only [materializeGo, hcut, hup, Bool.not_true, Bool.not_false,
          Bool.false_eq_true, if_false, if_true] at hc
        rcases ih (i + 1) acc c hc with h | ⟨j, cand2, hmem, hceq, hu⟩
        · exact Or.inl h
        · exact Or.inr ⟨j, cand2, List.mem_cons_of_mem _ hmem, hceq, hu⟩
      | true =>
        simp only [materializeGo, hcut, hup, Bool.not_true, Bool.false_eq_true,
          if_false] at hc
        rcases ih (i + 1) (acc ++ [mkDbClip segments video_id user_id i cand]) c hc with
          h | ⟨j, cand2, hmem, hceq, hu⟩
        · rcases List.mem_append.mp h with h2 | h2
          · exact Or.inl h2
          · exact Or.inr ⟨i, cand, List.mem_cons_self _ _,
              List.mem_singleton.mp h2, hup⟩
        · exact Or.inr ⟨j, cand2, List.mem_cons_of_mem _ hmem, hceq, hu⟩

/-- Claim C2, counterexample: a failed CUT is not skipped.  With two
candidates where cutting the first fails (`create_video_clip` runs ffmpeg with
`check=True`, so the failure raises), the exception escapes the loop: the
second candidate is never attempted, no clip is committed, and the video is
marked FAILED — not COMPLETED as the claim states. -/
theorem C2_counterexample :
    process_video_materialize [] [⟨0, 25, none, none, none⟩, ⟨30, 55, none, none, none⟩]
      "v" "u" (fun i => decide (i ≠ 0)) (fun _ => true) = (VideoStatus.FAILED, []) := by
  decide

/-- Claim C2 (amended): only a failed UPLOAD is logged and skipped
per-candidate; a failed cut raises and drives the video to FAILED.  Precisely:
the video reaches COMPLETED exactly when every candidate's cut succeeds — in
that case upload failures merely omit their candidate's row, the remaining
candidates all materialize (COMPLETED holds even with zero uploads
succeeding), and the committed rows are exactly the upload-successful
candidates in order. -/
theorem C2_theorem (segments : List Segment) (suggestions : List RawClip)
    (video_id user_id : String) (cutOk uploadOk : ℕ → Bool) :
    ((process_video_materialize segments suggestions video_id user_id cutOk uploadOk).1 =
        VideoStatus.COMPLETED ↔ ∀ j, j < suggestions.length → cutOk j = true) ∧
    ((∀ j, j < suggestions.length → cutOk j = true) →
      process_video_materialize segments suggestions video_id user_id cutOk uploadOk =
        (VideoStatus.COMPLETED,
         uploadedClips segments video_id user_id uploadOk 0 suggestions)) := by
  have hcompl : (∀ j, j < suggestions.length → cutOk j = true) →
      process_video_materialize segments suggestions video_id user_id cutOk uploadOk =
        (VideoStatus.COMPLETED,
         uploadedClips segments video_id user_id uploadOk 0 suggestions) := by
    intro h
    unfold process_video_materialize
    rw [materializeGo_completed segments video_id user_id cutOk uploadOk suggestions 0 []
      (by simpa using h)]
    simp
  refine ⟨⟨?_, fun h => by rw [hcompl h]⟩, hcompl⟩
  intro hst j hj
  by_contra hfail
  have : (process_video_materialize segments suggestions video_id user_id cutOk uploadOk).1 =
      VideoStatus.FAILED := by
    unfold process_video_materialize
    exact materializeGo_failed segments video_id user_id cutOk uploadOk suggestions 0 []
      ⟨j, by simpa using hj, by simpa using Bool.not_eq_true _ ▸ hfail⟩
  rw [this] at hst
  exact absurd hst (by simp)

/-- Claim C2, witness: the amended theorem applied to two candidates whose
cuts both succeed while the first upload fails: the video completes and
exactly the second candidate's row is committed. -/
theorem C2_witness :
    process_video_materialize [] [⟨0, 25, none, none, none⟩, ⟨30, 55, none, none, none⟩]
      "v" "u" (fun _ => true) (fun i => decide (i ≠ 0)) =
      (VideoStatus.COMPLETED,
       uploadedClips [] "v" "u" (fun i => decide (i ≠ 0)) 0
         [⟨0, 25, none, none, none⟩, ⟨30, 55, none, none, none⟩]) :=
  (C2_theorem [] [⟨0, 25, none, none, none⟩, ⟨30, 55, none, none, none⟩]
    "v" "u" (fun _ => true) (fun i => decide (i ≠ 0))).2 (by decide)

/-- Claim C5, counterexample: the 40-second candidate `(start 10, end 50)` is
outside the 20-30s duration band, yet with a successful cut and upload the
pipeline persists it verbatim as a Clip row and completes — no rejection or
clamping of out-of-band durations exists anywhere between the ranker and the
database insert. -/
theorem C5_counterexample :
    (process_video_materialize [] [⟨10, 50, some "r", some 90, some "h"⟩]
        "v" "u" (fun _ => true) (fun _ => true)).1 = VideoStatus.COMPLETED ∧
    ∃ c ∈ (process_video_materialize [] [⟨10, 50, some "r", some 90, some "h"⟩]
        "v" "u" (fun _ => true) (fun _ => true)).2,
      c.start_time = 10 ∧ c.end_time = 50 ∧
      ¬ (20 ≤ c.end_time - c.start_time ∧ c.end_time - c.start_time ≤ 30) := by
  refine ⟨by decide, ?_⟩
  obtain ⟨c, hc, h10, h50⟩ :
      ∃ c ∈ (process_video_materialize [] [⟨10, 50, some "r", some 90, some "h"⟩]
          "v" "u" (fun _ => true) (fun _ => true)).2,
        c.start_time = 10 ∧ c.end_time = 50 := by decide
  exact ⟨c, hc, h10, h50, by rw [h50, h10]; norm_num⟩

/-- Claim C5 (amended): no duration-band validation is performed: every Clip
row the pipeline persists carries some ranked candidate's window verbatim
(`start_time = candidate.start`, `end_time = candidate.end`), whatever its
duration — the 20-30s band exists only as a non-binding instruction in the
oracle prompt. -/
theorem C5_theorem (segments : List Segment) (suggestions : List RawClip)
    (video_id user_id : String) (cutOk uploadOk : ℕ → Bool) (c : DbClip)
    (hc : c ∈ (process_video_materialize segments suggestions video_id user_id
      cutOk uploadOk).2) :
    ∃ cand ∈ suggestions, c.start_time = cand.start ∧ c.end_time = cand.end_ := by
  rcases materializeGo_mem segments video_id user_id cutOk uploadOk suggestions 0 [] c hc
    with h | ⟨j, cand, hmem, hceq, -⟩
  · exact absurd h (List.not_mem_nil c)
  · exact ⟨cand, hmem, by rw [hceq]; exact ⟨rfl, rfl⟩⟩

/-- Claim C5, witness: the amended theorem applied to the out-of-band
candidate `(10, 50)`, whose persisted row indeed carries that window. -/
theorem C5_witness :
    ∃ cand ∈ [(⟨10, 50, some "r", some 90, some "h"⟩ : RawClip)],
      (mkDbClip [] "v" "u" 0 ⟨10, 50, some "r", some 90, some "h"⟩).start_time = cand.start ∧
      (mkDbClip [] "v" "u" 0 ⟨10, 50, some "r", some 90, some "h"⟩).end_time = cand.end_ :=
  C5_theorem [] [⟨10, 50, some "r", some 90, some "h"⟩] "v" "u"
    (fun _ => true) (fun _ => true) (mkDbClip [] "v" "u" 0 ⟨10, 50, some "r", some 90, some "h"⟩)
    (by decide)

/-- Claim C10: every Clip row persisted by the pipeline has a non-null
`s3_key`: a row is only inserted after `upload_file` returned success, and its
`s3_key` is then the freshly built clips key, so no Clip record with missing
media is ever created. -/
theorem C10_theorem (segments : List Segment) (suggestions : List RawClip)
    (video_id user_id : String) (cutOk uploadOk : ℕ → Bool) (c : DbClip)
    (hc : c ∈ (process_video_materialize segments suggestions video_id user_id
      cutOk uploadOk).2) :
    c.s3_key = some ("clips/" ++ user_id ++ "/" ++ video_id ++ "/" ++ c.filename) ∧
    ∃ j cand, cand ∈ suggestions ∧
      c = mkDbClip segments video_id user_id j cand ∧ uploadOk j = true := by
  rcases materializeGo_mem segments video_id user_id cutOk uploadOk suggestions 0 [] c hc
    with h | ⟨j, cand, hmem, hceq, hup⟩
  · exact absurd h (List.not_mem_nil c)
  · exact ⟨by rw [hceq]; rfl, j, cand, hmem, hceq, hup⟩

/-- Claim C10, witness: the theorem applied to one successfully uploaded
candidate, whose committed row carries the expected non-null S3 key. -/
theorem C10_witness :
    (mkDbClip [] "v" "u" 0 ⟨0, 25, some "r", some 90, some "h"⟩).s3_key =
      some ("clips/" ++ "u" ++ "/" ++ "v" ++ "/" ++
        (mkDbClip [] "v" "u" 0 ⟨0, 25, some "r", some 90, some "h"⟩).filename) :=
  (C10_theorem [] [⟨0, 25, some "r", some 90, some "h"⟩] "v" "u"
    (fun _ => true) (fun _ => true)
    (mkDbClip [] "v" "u" 0 ⟨0, 25, some "r", some 90, some "h"⟩) (by decide)).1

/-! Bounds for the crop computations. -/

lemma pyint_nonneg {q : ℚ} (h : 0 ≤ q) : 0 ≤ pyint q := by
  unfold pyint
  rw [if_pos h, Int.le_floor]
  exact_mod_cast h

lemma pyint_le_int {q : ℚ} {n : ℤ} (h0 : 0 ≤ q) (h : q ≤ (n : ℚ)) : pyint q ≤ n := by
  unfold pyint
  rw [if_pos h0]
  have := Int.floor_mono h
  rwa [Int.floor_intCast] at this

lemma dims_wide {w h : ℤ} {t : ℚ} (hh : 1 ≤ h) (ht : 0 < t)
    (hr : t < (w : ℚ) / (h : ℚ)) :
    0 ≤ pyint ((h : ℚ) * t) ∧ pyint ((h : ℚ) * t) ≤ w := by
  have hh0 : (0 : ℚ) < (h : ℚ) := by exact_mod_cast hh
  have hq0 : 0 ≤ (h : ℚ) * t := mul_nonneg (le_of_lt hh0) (le_of_lt ht)
  have hlt : (h : ℚ) * t < (w : ℚ) := by
    have := (lt_div_iff₀ hh0).mp hr
    linarith
  exact ⟨pyint_nonneg hq0, pyint_le_int hq0 (le_of_lt hlt)⟩

lemma dims_tall {w h : ℤ} {t : ℚ} (hw : 1 ≤ w) (hh : 1 ≤ h) (ht : 0 < t)
    (hr : (w : ℚ) / (h : ℚ) ≤ t) :
    0 ≤ pyint ((w : ℚ) / t) ∧ pyint ((w : ℚ) / t) ≤ h := by
  have hh0 : (0 : ℚ) < (h : ℚ) := by exact_mod_cast hh
  have hw0 : (0 : ℚ) ≤ (w : ℚ) := by exact_mod_cast le_trans zero_le_one hw
  have hq0 : 0 ≤ (w : ℚ) / t := div_nonneg hw0 (le_of_lt ht)
  have hle : (w : ℚ) / t ≤ (h : ℚ) := by
    rw [div_le_iff₀ ht]
    have := (div_le_iff₀ hh0).mp hr
    linarith
  exact ⟨pyint_nonneg hq0, pyint_le_int hq0 hle⟩

/-- The safety invariant claimed for a crop transform against its source
dimensions: even crop dimensions that fit, and offsets that keep the crop
window inside the frame. -/
def cropInvariant (r : ℤ × ℤ × ℤ × ℤ) (w h : ℤ) : Prop :=
  Even r.1 ∧ Even r.2.1 ∧ r.1 ≤ w ∧ r.2.1 ≤ h ∧
    0 ≤ r.2.2.1 ∧ 0 ≤ r.2.2.2 ∧ r.2.2.1 + r.1 ≤ w ∧ r.2.2.2 + r.2.1 ≤ h

/-- Claim C6: for every source with width, height ≥ 1 and the default
1080×1920 target, both crop computations — the CenterCrop one in
`convert_to_shorts` and the Smart one in `generate_crop_filter`, the latter
for any smoothed trajectory — produce even crop dimensions no larger than the
source and offsets satisfying `0 ≤ x_offset`, `0 ≤ y_offset`,
`x_offset + crop_width ≤ source_width` and
`y_offset + crop_height ≤ source_height`. -/
theorem C6_theorem (smoothed : List (ℚ × ℚ)) (w h : ℤ)
    (hw : 1 ≤ w) (hh : 1 ≤ h) :
    cropInvariant (convert_to_shorts_crop w h) w h ∧
    cropInvariant (generate_crop_filter smoothed w h) w h := by
  have ht : (0 : ℚ) < 9 / 16 := by norm_num
  constructor
  · unfold convert_to_shorts_crop
    by_cases hr : (w : ℚ) / (h : ℚ) > 9 / 16
    · obtain ⟨hnn, hle⟩ := dims_wide hh ht hr
      simp only [gt_iff_lt, if_pos hr]
      unfold pyfloordiv
      rw [Int.fdiv_eq_ediv _ (by norm_num)]
      unfold cropInvariant
      simp only [Int.even_iff]
      refine ⟨by omega, by omega, by omega, by omega, by omega, by omega, ?_, by omega⟩
      omega
    · obtain ⟨hnn, hle⟩ := dims_tall hw hh ht (not_lt.mp hr)
      simp only [gt_iff_lt, if_neg hr]
      unfold pyfloordiv
      rw [Int.fdiv_eq_ediv _ (by norm_num)]
      unfold cropInvariant
      simp only [Int.even_iff]
      refine ⟨by omega, by omega, by omega, by omega, by omega, by omega, by omega, ?_⟩
      omega
  · unfold generate_crop_filter
    have h1080 : ((1080 : ℤ) : ℚ) / ((1920 : ℤ) : ℚ) = 9 / 16 := by norm_num
    rw [h1080]
    by_cases hr : (w : ℚ) / (h : ℚ) > 9 / 16
    · obtain ⟨hnn, hle⟩ := dims_wide hh ht hr
      simp only [gt_iff_lt, if_pos hr]
      unfold cropInvariant
      simp only [Int.even_iff]
      refine ⟨by omega, by omega, by omega, by omega,
        le_max_left 0 _, le_max_left 0 _, ?_, ?_⟩
      · exact le_trans (add_le_add_right (max_le (by omega) (min_le_right _ _)) _) (by omega)
      · exact le_trans (add_le_add_right (max_le (by omega) (min_le_right _ _)) _) (by omega)
    · obtain ⟨hnn, hle⟩ := dims_tall hw hh ht (not_lt.mp hr)
      simp only [gt_iff_lt, if_neg hr]
      unfold cropInvariant
      simp only [Int.even_iff]
      refine ⟨by omega, by omega, by omega, by omega,
        le_max_left 0 _, le_max_left 0 _, ?_, ?_⟩
      · exact le_trans (add_le_add_right (max_le (by omega) (min_le_right _ _)) _) (by omega)
      · exact le_trans (add_le_add_right (max_le (by omega) (min_le_right _ _)) _) (by omega)

/-- Claim C6, witness: the invariant holds at a concrete 1920×1080 source
with an example trajectory. -/
theorem C6_witness :
    cropInvariant (convert_to_shorts_crop 1920 1080) 1920 1080 ∧
    cropInvariant (generate_crop_filter [(0, 0), (1, 1)] 1920 1080) 1920 1080 :=
  C6_theorem [(0, 0), (1, 1)] 1920 1080 (by norm_num) (by norm_num)

/-! Properties of the position smoother. -/

lemma fillPositions_length (c : ℚ × ℚ) (ps : List (Option FaceBox)) :
    (fillPositions c ps).length = ps.length := by
  induction ps generalizing c with
  | nil => rfl
  | cons p rest ih => cases p <;> simp [fillPositions, ih]

lemma fillPositions_replicate_none (c : ℚ × ℚ) (n : ℕ) :
    fillPositions c (List.replicate n (none : Option FaceBox)) =
      List.replicate n c := by
  induction n with
  | zero => rfl
  | succ n ih => simp [List.replicate_succ, fillPositions, ih]

lemma fillPositions_single (c : ℚ × ℚ) (v : FaceBox) (k m : ℕ) :
    fillPositions c (List.replicate k none ++ some v :: List.replicate m none) =
      List.replicate k c ++ List.replicate (m + 1) (v.1, v.2.1) := by
  induction k generalizing c with
  | zero =>
    simp only [List.replicate, List.nil_append, fillPositions,
      fillPositions_replicate_none]
  | succ k ih =>
    simp [List.replicate_succ, fillPositions, ih]

lemma windowAvg_replicate (t : ℕ) (c : ℚ × ℚ) (ht : t ≠ 0) :
    windowAvg (List.replicate t c) = c := by
  have ht0 : (t : ℚ) ≠ 0 := Nat.cast_ne_zero.mpr ht
  have h1 : ((List.replicate t c).map Prod.fst).sum = (t : ℚ) * c.1 := by
    rw [List.map_replicate, List.sum_replicate, nsmul_eq_mul]
  have h2 : ((List.replicate t c).map Prod.snd).sum = (t : ℚ) * c.2 := by
    rw [List.map_replicate, List.sum_replicate, nsmul_eq_mul]
  unfold windowAvg
  rw [h1, h2, List.length_replicate]
  rw [mul_div_cancel_left₀ _ ht0, mul_div_cancel_left₀ _ ht0]

lemma smooth_positions_getElem (positions : List (Option FaceBox)) (w i : ℕ)
    (hi : i < (fillPositions (1/2, 1/2) positions).length) :
    (smooth_positions positions w)[i]? =
      some (windowAvg (((fillPositions (1/2, 1/2) positions).drop (i - w / 2)).take
        (min (fillPositions (1/2, 1/2) positions).length (i + w / 2 + 1) -
          (i - w / 2)))) := by
  unfold smooth_positions
  rw [List.getElem?_map, List.getElem?_range hi]
  rfl

lemma smooth_positions_length (ps : List (Option FaceBox)) (w : ℕ) :
    (smooth_positions ps w).length = ps.length := by
  unfold smooth_positions
  simp [fillPositions_length]

lemma slice_append_right {α : Type} {A B : List α} {s t : ℕ} (hs : A.length ≤ s) :
    ((A ++ B).drop s).take t = (B.drop (s - A.length)).take t := by
  conv_lhs => rw [show s = A.length + (s - A.length) from by omega]
  rw [List.drop_append]

lemma slice_append_left {α : Type} {A B : List α} {s t : ℕ}
    (hst : s + t ≤ A.length) :
    ((A ++ B).drop s).take t = (A.drop s).take t := by
  rw [List.drop_append_of_le_length (by omega),
    List.take_append_of_le_length (by rw [List.length_drop]; omega)]

/-- Claim C7: `smooth_positions` fills absences by holding the last observed
center seeded with `(0.5, 0.5)` and then applies the centered moving average
with half-window `⌊5/2⌋ = 2`.  Consequently: an all-absent sequence of length
`n` yields `n` copies of `(0.5, 0.5)`; and for a single detection `v` at frame
`k` (with `m` absent frames after it), every index at least `k + 2` carries
`v`'s center exactly (the detection is held forward and the window has left
the pre-detection region), while every index `i` with `i + 2 < k` is still
exactly `(0.5, 0.5)` (backward smoothing reaches only within the window
radius). -/
theorem C7_theorem (n k m i : ℕ) (v : FaceBox) :
    smooth_positions (List.replicate n none) 5 = List.replicate n (1/2, 1/2) ∧
    ((k + 2 ≤ i ∧ i < k + 1 + m →
      (smooth_positions (List.replicate k none ++ some v :: List.replicate m none)
          5)[i]? = some (v.1, v.2.1)) ∧
     (i + 2 < k →
      (smooth_positions (List.replicate k none ++ some v :: List.replicate m none)
          5)[i]? = some (1/2, 1/2))) := by
  have hfill := fillPositions_single (1/2, 1/2) v k m
  have hlen : (fillPositions (1/2, 1/2)
      (List.replicate k none ++ some v :: List.replicate m none)).length =
      k + (m + 1) := by
    rw [fillPositions_length]
    simp
  refine ⟨?_, ?_, ?_⟩
  · -- all-absent input: constant center trajectory
    apply List.ext_getElem?
    intro j
    rw [List.getElem?_replicate]
    by_cases hj : j < n
    · have hlen2 : (fillPositions (1/2, 1/2)
          (List.replicate n (none : Option FaceBox))).length = n := by
        rw [fillPositions_length, List.length_replicate]
      rw [smooth_positions_getElem _ 5 j (by omega), if_pos hj,
        fillPositions_replicate_none, List.length_replicate,
        List.drop_replicate, List.take_replicate]
      rw [windowAvg_replicate _ _ (by omega)]
    · rw [List.getElem?_eq_none
        (by rw [smooth_positions_length, List.length_replicate]; omega), if_neg hj]
  · rintro ⟨h1, h2⟩
    rw [smooth_positions_getElem _ 5 i (by rw [hlen]; omega)]
    rw [hfill]
    simp only [List.length_append, List.length_replicate]
    rw [slice_append_right (by simp only [List.length_replicate]; omega)]
    simp only [List.length_replicate]
    rw [List.drop_replicate, List.take_replicate]
    rw [windowAvg_replicate _ _ (by omega)]
  · intro h3
    rw [smooth_positions_getElem _ 5 i (by rw [hlen]; omega)]
    rw [hfill]
    simp only [List.length_append, List.length_replicate]
    rw [slice_append_left (by simp only [List.length_replicate]; omega)]
    rw [List.drop_replicate, List.take_replicate]
    rw [windowAvg_replicate _ _ (by omega)]

/-- Claim C7, witness: the theorem applied to an all-absent sequence of length
3 and to a single detection at frame 4 of 8 sampled frames, read at indices 6
(fully held forward) and 1 (outside the backward radius). -/
theorem C7_witness :
    smooth_positions (List.replicate 3 (none : Option FaceBox)) 5 =
      List.replicate 3 (1/2, 1/2) ∧
    (smooth_positions
      (List.replicate 4 none ++ some (1, 1, 0, 0) :: List.replicate 3 none) 5)[6]? =
      some (1, 1) ∧
    (smooth_positions
      (List.replicate 4 none ++ some (1, 1, 0, 0) :: List.replicate 3 none) 5)[1]? =
      some (1/2, 1/2) := by
  refine ⟨(C7_theorem 3 4 3 6 (1, 1, 0, 0)).1, ?_, ?_⟩
  · exact (C7_theorem 3 4 3 6 (1, 1, 0, 0)).2.1 (by omega)
  · exact (C7_theorem 3 4 3 1 (1, 1, 0, 0)).2.2 (by omega)

/-- Claim C8: converting a clip to shorts twice with the same
`(clip, layout)` pair and no intervening state change is idempotent: starting
from a clip that has source media and no shorts artifact, with both S3
transfers succeeding, the first request performs exactly one encode and
commits the shorts key, and the second request short-circuits on the stored
artifact — same locator, zero further encodes, row unchanged. -/
theorem C8_theorem (clip : ClipRow) (user_id layout_type : String) (w h : ℤ)
    (det : List (Option FaceBox)) (src : String)
    (hsrc : clip.s3_key = some src) (hfresh : clip.shorts_s3_key = none) :
    responseLocator
      (convert_shorts_request clip user_id layout_type w h det true true).2.1 =
      some ("shorts/" ++ user_id ++ "/" ++ clip.video_id ++ "/" ++
        ("shorts_" ++ layout_type ++ "_" ++ clip.filename)) ∧
    responseLocator
      (convert_shorts_request
        (convert_shorts_request clip user_id layout_type w h det true true).1
        user_id layout_type w h det true true).2.1 =
      some ("shorts/" ++ user_id ++ "/" ++ clip.video_id ++ "/" ++
        ("shorts_" ++ layout_type ++ "_" ++ clip.filename)) ∧
    (convert_shorts_request clip user_id layout_type w h det true true).2.2 = 1 ∧
    (convert_shorts_request
      (convert_shorts_request clip user_id layout_type w h det true true).1
      user_id layout_type w h det true true).2.2 = 0 ∧
    (convert_shorts_request
      (convert_shorts_request clip user_id layout_type w h det true true).1
      user_id layout_type w h det true true).1 =
      (convert_shorts_request clip user_id layout_type w h det true true).1 := by
  have h1 : convert_shorts_request clip user_id layout_type w h det true true =
      ({ clip with
          shorts_s3_key := some ("shorts/" ++ user_id ++ "/" ++ clip.video_id ++
            "/" ++ ("shorts_" ++ layout_type ++ "_" ++ clip.filename)),
          layout_type := some layout_type },
       ConvertResponse.processed (TaskResult.complete
         ("shorts/" ++ user_id ++ "/" ++ clip.video_id ++ "/" ++
           ("shorts_" ++ layout_type ++ "_" ++ clip.filename)) layout_type),
       1) := by
    simp [convert_shorts_request, convert_clip_to_shorts_task, hsrc, hfresh]
  have h2 : convert_shorts_request
      (convert_shorts_request clip user_id layout_type w h det true true).1
      user_id layout_type w h det true true =
      ((convert_shorts_request clip user_id layout_type w h det true true).1,
       ConvertResponse.alreadyConverted
         ("shorts/" ++ user_id ++ "/" ++ clip.video_id ++ "/" ++
           ("shorts_" ++ layout_type ++ "_" ++ clip.filename)),
       0) := by
    rw [h1]
    simp [convert_shorts_request]
  rw [h1] at h2 ⊢
  rw [h2]
  exact ⟨rfl, rfl, rfl, rfl, rfl⟩

/-- Claim C8, witness: the theorem applied to a concrete un-converted clip and
the smart layout. -/
theorem C8_witness :
    responseLocator
      (convert_shorts_request ⟨"f.mp4", "v", some "clips/k", none, some "center_crop"⟩
        "u" "smart" 1920 1080 [] true true).2.1 =
      some ("shorts/" ++ "u" ++ "/" ++ "v" ++ "/" ++
        ("shorts_" ++ "smart" ++ "_" ++ "f.mp4")) ∧
    responseLocator
      (convert_shorts_request
        (convert_shorts_request ⟨"f.mp4", "v", some "clips/k", none, some "center_crop"⟩
          "u" "smart" 1920 1080 [] true true).1
        "u" "smart" 1920 1080 [] true true).2.1 =
      some ("shorts/" ++ "u" ++ "/" ++ "v" ++ "/" ++
        ("shorts_" ++ "smart" ++ "_" ++ "f.mp4")) ∧
    (convert_shorts_request ⟨"f.mp4", "v", some "clips/k", none, some "center_crop"⟩
      "u" "smart" 1920 1080 [] true true).2.2 = 1 ∧
    (convert_shorts_request
      (convert_shorts_request ⟨"f.mp4", "v", some "clips/k", none, some "center_crop"⟩
        "u" "smart" 1920 1080 [] true true).1
      "u" "smart" 1920 1080 [] true true).2.2 = 0 ∧
    (convert_shorts_request
      (convert_shorts_request ⟨"f.mp4", "v", some "clips/k", none, some "center_crop"⟩
        "u" "smart" 1920 1080 [] true true).1
      "u" "smart" 1920 1080 [] true true).1 =
      (convert_shorts_request ⟨"f.mp4", "v", some "clips/k", none, some "center_crop"⟩
        "u" "smart" 1920 1080 [] true true).1 :=
  C8_theorem ⟨"f.mp4", "v", some "clips/k", none, some "center_crop"⟩
    "u" "smart" 1920 1080 [] "clips/k" rfl rfl

/-- Claim C9, counterexample: a Smart reformat whose detector finds no face in
any sampled frame silently applies center-crop behavior while the task still
records `layout_type = "smart"` on the row — the stored layout IS left
mismatched against the applied behavior, refuting the claimed observability of
the fallback. -/
theorem C9_counterexample :
    (convert_clip_to_shorts_task
        ⟨"f.mp4", "v", some "clips/k", none, some "center_crop"⟩
        "u" "smart" 1920 1080 [none, none] true true).2.2.2 =
      some Applied.centerCrop ∧
    (convert_clip_to_shorts_task
        ⟨"f.mp4", "v", some "clips/k", none, some "center_crop"⟩
        "u" "smart" 1920 1080 [none, none] true true).1.layout_type =
      some "smart" ∧
    convert_to_shorts_with_layout "center_crop" 1920 1080 [none, none] =
      Applied.centerCrop ∧
    "smart" ≠ "center_crop" := by
  refine ⟨?_, ?_, ?_, ?_⟩
  · simp [convert_clip_to_shorts_task, convert_to_shorts_with_layout,
      convert_to_shorts_smart]
  · simp [convert_clip_to_shorts_task]
  · simp [convert_to_shorts_with_layout]
  · simp

/-- Claim C9 (amended): when the detector returns no detection for any sampled
frame, the Smart reformat does fall back to CenterCrop behavior, but the
fallback is not surfaced in the stored state: `convert_clip_to_shorts_task`
still records the requested `"smart"` layout on the Clip row, mismatching the
actually applied center-crop (the fallback is only printed to the worker log). -/
theorem C9_theorem (clip : ClipRow) (user_id : String) (w h : ℤ)
    (det : List (Option FaceBox)) (src : String)
    (hsrc : clip.s3_key = some src) (hdet : ∀ d ∈ det, d = none) :
    (convert_clip_to_shorts_task clip user_id "smart" w h det true true).2.2.2 =
      some Applied.centerCrop ∧
    (convert_clip_to_shorts_task clip user_id "smart" w h det true true).1.layout_type =
      some "smart" := by
  have hany : (det.any fun pos => pos.isSome) = false := by
    rw [List.any_eq_false]
    intro d hd
    rw [hdet d hd]
    simp
  constructor
  · simp only [convert_clip_to_shorts_task, hsrc, Bool.not_true, Bool.false_eq_true,
      if_false]
    unfold convert_to_shorts_with_layout convert_to_shorts_smart
    rw [hany]
    by_cases hlen : det.length = 0 <;> simp [hlen]
  · simp [convert_clip_to_shorts_task, hsrc]

/-- Claim C9, witness: the amended theorem applied to a concrete clip and two
empty detection frames. -/
theorem C9_witness :
    (convert_clip_to_shorts_task
        ⟨"c.mp4", "v2", some "clips/c", none, none⟩
        "u" "smart" 1280 720 [none, none, none] true true).2.2.2 =
      some Applied.centerCrop ∧
    (convert_clip_to_shorts_task
        ⟨"c.mp4", "v2", some "clips/c", none, none⟩
        "u" "smart" 1280 720 [none, none, none] true true).1.layout_type =
      some "smart" :=
  C9_theorem ⟨"c.mp4", "v2", some "clips/c", none, none⟩ "u" 1280 720
    [none, none, none] "clips/c" rfl (by decide)

end ClipGen
